import Mathlib

/-!
Shallow embedding of `scripts/parse_weight_training.py`.

Python floats are modelled as rationals (ℚ); the regex
`(\d+(?:\.\d+)?)\s*(?:lbs?|pounds?|kg|kilograms?)?\s*[xX×]\s*(\d+)` applied via
`re.search` is embedded as a deterministic scanner over `List Char`: at this
pattern, Python's backtracking never changes the result (greedy `\d+`/`\s*`
runs are forced, the optional fraction is forced when applicable, and the unit
alternatives have pairwise-incompatible continuations), so the leftmost-start
deterministic scan below computes exactly the match `re.search` finds.
`\d` is modelled as the ASCII digits and `\s` (and `str.strip`) as the ASCII
whitespace characters, the only ones the repository's inputs use.
-/

attribute [local semireducible] Rat.mul Rat.add Rat.sub Rat.inv

namespace WeightTraining

def isDig (c : Char) : Bool := decide ('0' ≤ c) && decide (c ≤ '9')

def isPyWs (c : Char) : Bool :=
  decide (c = ' ') || decide (c = '\t') || decide (c = '\n') ||
  decide (c = '\r') || decide (c = '\x0b') || decide (c = '\x0c')

def isSep (c : Char) : Bool := decide (c = 'x') || decide (c = 'X') || decide (c = '×')

def skipWs (s : List Char) : List Char := s.dropWhile isPyWs

def stripChars (s : List Char) : List Char :=
  ((s.dropWhile isPyWs).reverse.dropWhile isPyWs).reverse

/-- Boolean list-prefix test (needle, haystack). -/
def isPrefixListB : List Char → List Char → Bool
  | [], _ => true
  | _ :: _, [] => false
  | a :: as, b :: bs => decide (a = b) && isPrefixListB as bs

/-- Boolean substring test: Python's `needle in hay`. -/
def containsSub (needle : List Char) : List Char → Bool
  | [] => isPrefixListB needle []
  | c :: t => isPrefixListB needle (c :: t) || containsSub needle t

/-- The optional unit token `(?:lbs?|pounds?|kg|kilograms?)?`: consume the
unit token at the front, if any, trying the alternatives in the pattern's
order (each `s?` greedy, so the longer variant of a family first). -/
def matchUnit (s : List Char) : List Char :=
  if isPrefixListB ['l', 'b', 's'] s then s.drop 3
  else if isPrefixListB ['l', 'b'] s then s.drop 2
  else if isPrefixListB ['p', 'o', 'u', 'n', 'd', 's'] s then s.drop 6
  else if isPrefixListB ['p', 'o', 'u', 'n', 'd'] s then s.drop 5
  else if isPrefixListB ['k', 'g'] s then s.drop 2
  else if isPrefixListB ['k', 'i', 'l', 'o', 'g', 'r', 'a', 'm', 's'] s then s.drop 9
  else if isPrefixListB ['k', 'i', 'l', 'o', 'g', 'r', 'a', 'm'] s then s.drop 8
  else s

/-- The optional fraction `(?:\.\d+)?` after the integer digits: the characters
it appends to capture group 1 (`r` is what follows the integer digits). When
`r` starts with '.' followed by a digit the fraction is consumed, else not. -/
def fracDigits (r : List Char) : List Char :=
  match r with
  | '.' :: r2 => if (r2.takeWhile isDig).isEmpty then [] else '.' :: r2.takeWhile isDig
  | _ => []

/-- What remains of the input after the optional fraction `(?:\.\d+)?`. -/
def afterFrac (r : List Char) : List Char :=
  match r with
  | '.' :: r2 => if (r2.takeWhile isDig).isEmpty then r else r2.dropWhile isDig
  | _ => r

/-- Attempt the full pattern at the start of `s`; on success return the two
capture groups (the number string and the reps digits). -/
def matchAt (s : List Char) : Option (List Char × List Char) :=
  if (s.takeWhile isDig).isEmpty then none
  else
    match skipWs (matchUnit (skipWs (afterFrac (s.dropWhile isDig)))) with
    | [] => none
    | c :: r5 =>
      if isSep c then
        if ((skipWs r5).takeWhile isDig).isEmpty then none
        else some (s.takeWhile isDig ++ fracDigits (s.dropWhile isDig), (skipWs r5).takeWhile isDig)
      else none

/-- `re.search` for the set pattern: try every start position left to right. -/
def searchMatch : List Char → Option (List Char × List Char)
  | [] => none
  | c :: t =>
    match matchAt (c :: t) with
    | some r => some r
    | none => searchMatch t

/-- Attempt the guard pattern `\d+\s*[xX×]\s*\d+` at the start of `s`. -/
def guardAt (s : List Char) : Bool :=
  if (s.takeWhile isDig).isEmpty then false
  else
    match skipWs (s.dropWhile isDig) with
    | [] => false
    | c :: r5 => isSep c && !((skipWs r5).takeWhile isDig).isEmpty

/-- `re.search` for the guard pattern `\d+\s*[xX×]\s*\d+`. -/
def guardSearch : List Char → Bool
  | [] => false
  | c :: t => guardAt (c :: t) || guardSearch t

def natOfDigits (l : List Char) : ℕ :=
  l.foldl (fun n c => 10 * n + (c.toNat - 48)) 0

/-- Value of capture group 1 (digits, optionally '.' then digits), as Python's
`float` of that string, modelled exactly in ℚ. -/
def ratOfNum (g : List Char) : ℚ :=
  let ip := g.takeWhile fun c => decide (c ≠ '.')
  match g.dropWhile (fun c => decide (c ≠ '.')) with
  | [] => (natOfDigits ip : ℚ)
  | _ :: frac => (natOfDigits ip : ℚ) + (natOfDigits frac : ℚ) / ((10 : ℚ) ^ frac.length)

/-- Python's `2.20462` conversion constant. -/
def kgFactor : ℚ := 220462 / 100000

/-- Python's `'kg' in line.lower() or 'kilogram' in line.lower()`. -/
def kgHeuristic (l : List Char) : Bool :=
  containsSub ['k', 'g'] (l.map Char.toLower) ||
  containsSub ['k', 'i', 'l', 'o', 'g', 'r', 'a', 'm'] (l.map Char.toLower)

/-- `parse_set_line` over the character list of the line. -/
def parseSetChars (l : List Char) : Option (ℚ × ℕ) :=
  match searchMatch l with
  | none => none
  | some (g1, g2) =>
    some (if kgHeuristic l then ratOfNum g1 * kgFactor else ratOfNum g1, natOfDigits g2)

/-- `parse_set_line(line)` from `scripts/parse_weight_training.py`. -/
def parse_set_line (line : String) : Option (ℚ × ℕ) := parseSetChars line.toList

/-- The result record of the aggregator (Python: a dict with these four keys). -/
structure Metrics where
  total_volume_lbs : ℚ
  total_sets : ℕ
  total_reps : ℕ
  exercise_count : ℕ
deriving DecidableEq

def zeroMetrics : Metrics := ⟨0, 0, 0, 0⟩

/-- Python's `description.split('\n')` (keeps empty pieces). -/
def splitNl : List Char → List (List Char)
  | [] => [[]]
  | c :: cs =>
    if c = '\n' then [] :: splitNl cs
    else
      match splitNl cs with
      | [] => [[c]]
      | h :: t => (c :: h) :: t

/-- Round half to even (Python's `round`) of `q`, as an integer. -/
def roundHalfEven (q : ℚ) : ℤ :=
  if q - ⌊q⌋ < 1 / 2 then ⌊q⌋
  else if q - ⌊q⌋ > 1 / 2 then ⌊q⌋ + 1
  else if ⌊q⌋ % 2 = 0 then ⌊q⌋ else ⌊q⌋ + 1

/-- Python's `round(q, 2)`. -/
def round2 (q : ℚ) : ℚ := (roundHalfEven (q * 100) : ℚ) / 100

/-- Python set insertion, modelled on a duplicate-free list. -/
def insertName (name : List Char) (l : List (List Char)) : List (List Char) :=
  if name ∈ l then l else name :: l

/-- The local state of the aggregation loop in
`parse_weight_training_description`. -/
structure AggSt where
  vol : ℚ
  sets : ℕ
  reps : ℕ
  exercises : List (List Char)
  current : Option (List Char)

def initSt : AggSt := ⟨0, 0, 0, [], none⟩

/-- Whether a (trimmed, unparsed) line is adopted as the new exercise name:
the five conditions of the `else` branch of the loop. -/
def exCandidate (line : List Char) : Bool :=
  !guardSearch line &&
  !isPrefixListB ['s', 'e', 't', ' '] (line.map Char.toLower) &&
  !isPrefixListB ['l', 'o', 'g', 'g', 'e', 'd', ' ', 'w', 'i', 't', 'h'] (line.map Char.toLower) &&
  !isPrefixListB ['r', 'e', 'p', ' '] (line.map Char.toLower) &&
  decide (line.length > 3)

/-- One iteration of the `for line in lines` loop (on the trimmed line). -/
def processLine (st : AggSt) (raw : List Char) : AggSt :=
  if stripChars raw = [] then st
  else
    match parseSetChars (stripChars raw) with
    | some (w, r) =>
      { vol := st.vol + w * r
        sets := st.sets + 1
        reps := st.reps + r
        exercises :=
          match st.current with
          | none => st.exercises
          | some name => if name = [] then st.exercises else insertName name st.exercises
        current := st.current }
    | none =>
      if exCandidate (stripChars raw) then { st with current := some (stripChars raw) } else st

/-- `parse_weight_training_description(description)`; the argument is
`Option String` because Python callers also pass `None`, and
`if not description` treats `None` and `""` alike. -/
def parse_weight_training_description (description : Option String) : Metrics :=
  match description with
  | none => zeroMetrics
  | some d =>
    if d = "" then zeroMetrics
    else
      let st := (splitNl d.toList).foldl processLine initSt
      { total_volume_lbs := round2 st.vol
        total_sets := st.sets
        total_reps := st.reps
        exercise_count := st.exercises.length }

/-- An activity record, reduced to the one attribute the adapter reads:
`none` = key absent, `some none` = key present with value `None`,
`some (some s)` = key present with string value `s`. -/
structure Activity where
  description : Option (Option String)

/-- `get_weight_training_metrics(activity)`: Python's
`activity.get('description', '') or ''` maps an absent key, a `None` value and
the empty string all to `''`. -/
def get_weight_training_metrics (a : Activity) : Metrics :=
  parse_weight_training_description
    (some (match a.description with
           | some (some s) => s
           | _ => ""))

/-- The seven unit tokens of the pattern, in lowercase. -/
def unitTokens : List (List Char) :=
  [['l', 'b', 's'], ['l', 'b'],
   ['p', 'o', 'u', 'n', 'd', 's'], ['p', 'o', 'u', 'n', 'd'],
   ['k', 'g'],
   ['k', 'i', 'l', 'o', 'g', 'r', 'a', 'm'], ['k', 'i', 'l', 'o', 'g', 'r', 'a', 'm', 's']]

/-- Specification-side view of an aggregation run: the (weight, reps) pairs of
exactly those trimmed lines that the set parser recognizes, in order. -/
def recognizedSets (o : Option String) : List (ℚ × ℕ) :=
  (splitNl (o.getD "").toList).filterMap fun raw => parseSetChars (stripChars raw)

/-- A sequence of independent aggregator invocations (one result per call). -/
def runCalls (inputs : List (Option String)) : List Metrics :=
  inputs.map parse_weight_training_description

/-- The Hevy-style multi-exercise description of `test_hevy_format` in
`tests/test_parse_weight_training.py`. -/
def hevyDesc : String :=
  "Logged with Hevy\n\nChest Press (Machine)\nSet 1: 175 lbs x 7\nSet 2: 175 lbs x 6\nSet 3: 170 lbs x 6 [Failure]\n\nSeated Shoulder Press (Machine)\nSet 1: 125 lbs x 4\nSet 2: 125 lbs x 5 [Failure]\nSet 3: 120 lbs x 5 [Failure]\n\nLateral Raise (Dumbbell)\nSet 1: 50 lbs x 8\nSet 2: 50 lbs x 7\nSet 3: 50 lbs x 5\n\nTriceps Extension (Dumbbell)\nSet 1: 55 lbs x 8\nSet 2: 55 lbs x 8\nSet 3: 55 lbs x 6"

/-! Helper lemmas. -/

theorem takeWhile_app (p : Char → Bool) (d rest : List Char) (hd : ∀ c ∈ d, p c = true) :
    (d ++ rest).takeWhile p = d ++ rest.takeWhile p := by
  induction d with
  | nil => simp
  | cons a t ih =>
    have ha : p a = true := hd a (by simp)
    simp [List.takeWhile_cons, ha, ih fun c hc => hd c (by simp [hc])]

theorem dropWhile_app (p : Char → Bool) (d rest : List Char) (hd : ∀ c ∈ d, p c = true) :
    (d ++ rest).dropWhile p = rest.dropWhile p := by
  induction d with
  | nil => simp
  | cons a t ih =>
    have ha : p a = true := hd a (by simp)
    simp [List.dropWhile_cons, ha, ih fun c hc => hd c (by simp [hc])]

theorem sep_cases (c : Char) (hc : isSep c = true) : c = 'x' ∨ c = 'X' ∨ c = '×' := by
  have h := hc
  simp only [isSep, Bool.or_eq_true, decide_eq_true_eq] at h
  tauto

theorem skipWs_of_sep (c : Char) (r : List Char) (hc : isSep c = true) :
    skipWs (c :: r) = c :: r := by
  rcases sep_cases c hc with h | h | h <;> subst h <;> rfl

theorem matchUnit_of_sep (c : Char) (r : List Char) (hc : isSep c = true) :
    matchUnit (c :: r) = c :: r := by
  rcases sep_cases c hc with h | h | h <;> subst h <;> rfl

theorem afterFrac_of_sep (r : List Char) (c : Char) (r5 : List Char)
    (hws : skipWs r = c :: r5) (hc : isSep c = true) : afterFrac r = r := by
  cases r with
  | nil => simp [skipWs] at hws
  | cons a t =>
    by_cases ha : a = '.'
    · subst ha
      rw [show skipWs ('.' :: t) = '.' :: t from rfl] at hws
      injection hws with h1 h2
      rw [← h1] at hc
      exact absurd hc (by decide)
    · unfold afterFrac
      split
      · next r2 heq =>
        injection heq with h1 h2
        exact absurd h1 ha
      · rfl

theorem matchAt_of_guardAt (s : List Char) (h : guardAt s = true) : (matchAt s).isSome = true := by
  unfold guardAt at h
  by_cases hd : (s.takeWhile isDig).isEmpty
  · rw [if_pos hd] at h
    exact absurd h (by simp)
  · rw [if_neg hd] at h
    cases hws : skipWs (s.dropWhile isDig) with
    | nil =>
      rw [hws] at h
      exact absurd h (by simp)
    | cons c r5 =>
      rw [hws] at h
      simp only [Bool.and_eq_true, Bool.not_eq_true'] at h
      obtain ⟨hc, hg2⟩ := h
      unfold matchAt
      rw [if_neg hd, afterFrac_of_sep (s.dropWhile isDig) c r5 hws hc, hws,
        matchUnit_of_sep c r5 hc, skipWs_of_sep c r5 hc]
      simp [hc, hg2]

theorem searchMatch_of_guardSearch (s : List Char) (h : guardSearch s = true) :
    (searchMatch s).isSome = true := by
  induction s with
  | nil => simp [guardSearch] at h
  | cons c t ih =>
    unfold guardSearch at h
    unfold searchMatch
    cases hm : matchAt (c :: t) with
    | some p => simp
    | none =>
      simp only [hm]
      simp only [Bool.or_eq_true] at h
      rcases h with h1 | h2
      · have := matchAt_of_guardAt (c :: t) h1
        rw [hm] at this
        exact absurd this (by simp)
      · exact ih h2

theorem parseSetChars_isSome_of_search (l : List Char) (h : (searchMatch l).isSome = true) :
    (parseSetChars l).isSome = true := by
  unfold parseSetChars
  cases hm : searchMatch l with
  | none => rw [hm] at h; exact absurd h (by simp)
  | some p =>
    obtain ⟨g1, g2⟩ := p
    rfl

theorem parseSetChars_none_iff (l : List Char) :
    parseSetChars l = none ↔ searchMatch l = none := by
  constructor
  · intro h
    cases hm : searchMatch l with
    | none => rfl
    | some p =>
      obtain ⟨g1, g2⟩ := p
      unfold parseSetChars at h
      rw [hm] at h
      exact absurd h (by simp)
  · intro h
    unfold parseSetChars
    rw [h]

/-- C9: the exercise-name guard pattern `\d+\s*[xX×]\s*\d+` is subsumed by the
set parser's pattern: on every line where `parse_set_line` fails, the guard
regex does not match either, so the first exclusion condition of the
exercise-name heuristic never rejects a line in the failure branch. -/
theorem guardSearch_false_of_parse_none (line : String)
    (h : parse_set_line line = none) : guardSearch line.toList = false := by
  cases hg : guardSearch line.toList
  · rfl
  · exfalso
    have hs := searchMatch_of_guardSearch line.toList hg
    rw [(parseSetChars_none_iff line.toList).mp h] at hs
    exact absurd hs (by simp)

theorem guardSearch_false_of_parse_none_witness :
    guardSearch "Bench Press".toList = false :=
  guardSearch_false_of_parse_none "Bench Press" (by decide)

theorem searchMatch_append_of_matchAt (pre s : List Char) (h : (matchAt s).isSome = true) :
    (searchMatch (pre ++ s)).isSome = true := by
  induction pre with
  | nil =>
    rw [List.nil_append]
    cases s with
    | nil => exact absurd h (by decide)
    | cons c t =>
      unfold searchMatch
      cases hm : matchAt (c :: t) with
      | some p => simp
      | none => rw [hm] at h; exact absurd h (by simp)
  | cons a pre ih =>
    rw [List.cons_append]
    unfold searchMatch
    cases hm : matchAt (a :: (pre ++ s)) with
    | some p => simp
    | none => simpa using ih

theorem isPyWs_eq_false_of_isDig (c : Char) (h : isDig c = true) : isPyWs c = false := by
  simp only [isDig, Bool.and_eq_true, decide_eq_true_eq] at h
  obtain ⟨h0, h9⟩ := h
  simp only [isPyWs, Bool.or_eq_false_iff, decide_eq_false_iff_not]
  refine ⟨⟨⟨⟨⟨?_, ?_⟩, ?_⟩, ?_⟩, ?_⟩, ?_⟩ <;> rintro rfl <;> revert h0 h9 <;> decide

theorem skipWs_digits (d post : List Char) (hd : ∀ c ∈ d, isDig c = true) (hne : d ≠ []) :
    skipWs (d ++ post) = d ++ post := by
  cases d with
  | nil => exact absurd rfl hne
  | cons a t =>
    have ha : isPyWs a = false := isPyWs_eq_false_of_isDig a (hd a (by simp))
    simp [skipWs, List.dropWhile_cons, ha]

theorem ne_true_of_eq_false {b : Bool} (h : b = false) : ¬(b = true) := by
  simp [h]

theorem isDig_eq_false_of_isPyWs (c : Char) (h : isPyWs c = true) : isDig c = false := by
  cases hd : isDig c
  · rfl
  · rw [isPyWs_eq_false_of_isDig c hd] at h
    exact absurd h (by decide)

theorem isPyWs_not_s_dot (c : Char) (h : isPyWs c = true) : c ≠ 's' ∧ c ≠ '.' := by
  constructor <;> rintro rfl <;> exact absurd h (by decide)

theorem isSep_not_s (c : Char) (h : isSep c = true) : c ≠ 's' := by
  rcases sep_cases c h with rfl | rfl | rfl <;> decide

theorem isPyWs_eq_false_of_isSep (c : Char) (h : isSep c = true) : isPyWs c = false := by
  rcases sep_cases c h with rfl | rfl | rfl <;> rfl

theorem skipWs_not_ws (e : Char) (t : List Char) (he : isPyWs e = false) :
    skipWs (e :: t) = e :: t := by
  simp [skipWs, List.dropWhile_cons, he]

theorem skipWs_ws_app (ws rest : List Char) (h : ∀ c ∈ ws, isPyWs c = true) :
    skipWs (ws ++ rest) = skipWs rest := by
  induction ws with
  | nil => rfl
  | cons a t ih =>
    have ha : isPyWs a = true := h a (by simp)
    rw [List.cons_append,
      show skipWs (a :: (t ++ rest)) = skipWs (t ++ rest) from by
        simp [skipWs, List.dropWhile_cons, ha]]
    exact ih fun c hc => h c (by simp [hc])

theorem takeWhile_not_dig (e : Char) (t : List Char) (he : isDig e = false) :
    (e :: t).takeWhile isDig = [] := by
  simp [List.takeWhile_cons, he]

theorem dropWhile_not_dig (e : Char) (t : List Char) (he : isDig e = false) :
    (e :: t).dropWhile isDig = e :: t := by
  simp [List.dropWhile_cons, he]

theorem afterFrac_not_dot (e : Char) (t : List Char) (he : e ≠ '.') :
    afterFrac (e :: t) = e :: t := by
  unfold afterFrac
  split
  · next r2 heq =>
    injection heq with h1 h2
    exact absurd h1 he
  · rfl

theorem isPrefixListB_s_cons (c : Char) (t : List Char) (hc : c ≠ 's') :
    isPrefixListB ['s'] (c :: t) = false := by
  show (decide ('s' = c) && isPrefixListB [] t) = false
  rw [decide_eq_false fun h => hc h.symm]
  rfl

theorem matchUnit_lbs (r : List Char) : matchUnit ('l' :: 'b' :: 's' :: r) = r := rfl

theorem matchUnit_pounds (r : List Char) :
    matchUnit ('p' :: 'o' :: 'u' :: 'n' :: 'd' :: 's' :: r) = r := rfl

theorem matchUnit_kg (r : List Char) : matchUnit ('k' :: 'g' :: r) = r := rfl

theorem matchUnit_kilograms (r : List Char) :
    matchUnit ('k' :: 'i' :: 'l' :: 'o' :: 'g' :: 'r' :: 'a' :: 'm' :: 's' :: r) = r := rfl

theorem matchUnit_lb (c : Char) (t : List Char) (hc : c ≠ 's') :
    matchUnit ('l' :: 'b' :: c :: t) = c :: t := by
  unfold matchUnit
  rw [if_neg (ne_true_of_eq_false
    (show isPrefixListB ['l', 'b', 's'] ('l' :: 'b' :: c :: t) = false from
      isPrefixListB_s_cons c t hc))]
  rfl

theorem matchUnit_pound (c : Char) (t : List Char) (hc : c ≠ 's') :
    matchUnit ('p' :: 'o' :: 'u' :: 'n' :: 'd' :: c :: t) = c :: t := by
  unfold matchUnit
  rw [if_neg (ne_true_of_eq_false
    (show isPrefixListB ['p', 'o', 'u', 'n', 'd', 's']
        ('p' :: 'o' :: 'u' :: 'n' :: 'd' :: c :: t) = false from
      isPrefixListB_s_cons c t hc))]
  rfl

theorem matchUnit_kilogram (c : Char) (t : List Char) (hc : c ≠ 's') :
    matchUnit ('k' :: 'i' :: 'l' :: 'o' :: 'g' :: 'r' :: 'a' :: 'm' :: c :: t) = c :: t := by
  unfold matchUnit
  rw [if_neg (ne_true_of_eq_false
    (show isPrefixListB ['k', 'i', 'l', 'o', 'g', 'r', 'a', 'm', 's']
        ('k' :: 'i' :: 'l' :: 'o' :: 'g' :: 'r' :: 'a' :: 'm' :: c :: t) = false from
      isPrefixListB_s_cons c t hc))]
  rfl

theorem matchAt_flex (num d1 rest0 : List Char) (sep : Char) (r5 : List Char)
    (htw : (num ++ rest0).takeWhile isDig = d1) (h1 : d1 ≠ [])
    (haf : afterFrac ((num ++ rest0).dropWhile isDig) = rest0)
    (hrest : skipWs (matchUnit (skipWs rest0)) = sep :: r5)
    (hc : isSep sep = true)
    (hg2 : ((skipWs r5).takeWhile isDig).isEmpty = false) :
    (matchAt (num ++ rest0)).isSome = true := by
  unfold matchAt
  rw [htw, haf, hrest]
  rw [if_neg (by simpa [List.isEmpty_iff] using h1)]
  simp [hc, hg2]

/-- C2 counterexample: the pattern is applied without a case-insensitivity
flag, so the uppercase unit token in "80 KG x 10" blocks the match and
`parse_set_line` returns `None`, contradicting the claim that it succeeds. -/
theorem parse_set_line_uppercase_kg_fails : parse_set_line "80 KG x 10" = none := by decide

/-- C2 (amended): the unit token is matched case-sensitively (lowercase
only). For every line containing a number (digits, optionally followed by a
decimal point and digits), then optional whitespace, one of the lowercase
unit tokens `lbs`, `lb`, `pound`, `pounds`, `kg`, `kilogram`, `kilograms`,
then optional whitespace, a separator `x`, `X` or `×`, optional whitespace,
and an integer — with arbitrary text before and after — `parse_set_line`
returns a (weight, reps) pair rather than `None`. -/
theorem parse_set_line_lowercase_unit_matches
    (pre post num d1 dfrac ws1 ws2 ws3 d2 u : List Char) (sep : Char)
    (hd1 : ∀ c ∈ d1, isDig c = true) (h1 : d1 ≠ [])
    (hnum : num = d1
      ∨ (num = d1 ++ '.' :: dfrac ∧ (∀ c ∈ dfrac, isDig c = true) ∧ dfrac ≠ []))
    (hw1 : ∀ c ∈ ws1, isPyWs c = true) (hw2 : ∀ c ∈ ws2, isPyWs c = true)
    (hw3 : ∀ c ∈ ws3, isPyWs c = true)
    (hd2 : ∀ c ∈ d2, isDig c = true) (h2 : d2 ≠ [])
    (hu : u ∈ unitTokens) (hs : isSep sep = true) :
    (parse_set_line (String.mk
      (pre ++ (num ++ (ws1 ++ (u ++ (ws2 ++ sep :: (ws3 ++ (d2 ++ post))))))))).isSome
      = true := by
  simp only [unitTokens, List.mem_cons, List.not_mem_nil, or_false] at hu
  have hheadU : ∃ e t2, u = e :: t2 ∧ isDig e = false ∧ e ≠ '.' ∧ isPyWs e = false := by
    rcases hu with rfl | rfl | rfl | rfl | rfl | rfl | rfl <;>
      exact ⟨_, _, rfl, by decide, by decide, by decide⟩
  have hmu : matchUnit (u ++ (ws2 ++ sep :: (ws3 ++ (d2 ++ post))))
      = ws2 ++ sep :: (ws3 ++ (d2 ++ post)) := by
    have hhead : ∃ e t2, ws2 ++ sep :: (ws3 ++ (d2 ++ post)) = e :: t2 ∧ e ≠ 's' := by
      cases ws2 with
      | nil => exact ⟨sep, _, rfl, isSep_not_s sep hs⟩
      | cons w wt => exact ⟨w, _, rfl, (isPyWs_not_s_dot w (hw2 w (by simp))).1⟩
    obtain ⟨e, t2, heq, hes⟩ := hhead
    rw [heq]
    rcases hu with rfl | rfl | rfl | rfl | rfl | rfl | rfl
    · exact matchUnit_lbs _
    · exact matchUnit_lb e t2 hes
    · exact matchUnit_pounds _
    · exact matchUnit_pound e t2 hes
    · exact matchUnit_kg _
    · exact matchUnit_kilogram e t2 hes
    · exact matchUnit_kilograms _
  have hrest0 : ∃ e t, ws1 ++ (u ++ (ws2 ++ sep :: (ws3 ++ (d2 ++ post)))) = e :: t
      ∧ isDig e = false ∧ e ≠ '.' := by
    cases ws1 with
    | nil =>
      obtain ⟨e, t2, hequ, hde, hdote, -⟩ := hheadU
      rw [List.nil_append, hequ, List.cons_append]
      exact ⟨e, _, rfl, hde, hdote⟩
    | cons w wt =>
      have hw := hw1 w (by simp)
      exact ⟨w, _, rfl, isDig_eq_false_of_isPyWs w hw, (isPyWs_not_s_dot w hw).2⟩
  obtain ⟨e0, t0, he0, hd0, hdot0⟩ := hrest0
  have htw : ((num ++ (ws1 ++ (u ++ (ws2 ++ sep :: (ws3 ++ (d2 ++ post))))))).takeWhile isDig
      = d1 := by
    rcases hnum with rfl | ⟨rfl, hdf, hdfne⟩
    · rw [takeWhile_app isDig _ _ hd1, he0, takeWhile_not_dig e0 t0 hd0, List.append_nil]
    · rw [List.append_assoc, List.cons_append, takeWhile_app isDig _ _ hd1,
        takeWhile_not_dig '.' _ (by decide), List.append_nil]
  have haf : afterFrac
      ((num ++ (ws1 ++ (u ++ (ws2 ++ sep :: (ws3 ++ (d2 ++ post)))))).dropWhile isDig)
      = ws1 ++ (u ++ (ws2 ++ sep :: (ws3 ++ (d2 ++ post)))) := by
    rcases hnum with rfl | ⟨rfl, hdf, hdfne⟩
    · rw [dropWhile_app isDig _ _ hd1, he0, dropWhile_not_dig e0 t0 hd0]
      exact afterFrac_not_dot e0 t0 hdot0
    · rw [List.append_assoc, List.cons_append, dropWhile_app isDig _ _ hd1,
        dropWhile_not_dig '.' _ (by decide)]
      rw [show afterFrac ('.' :: (dfrac ++ (ws1 ++ (u ++ (ws2 ++ sep ::
            (ws3 ++ (d2 ++ post)))))))
          = if ((dfrac ++ (ws1 ++ (u ++ (ws2 ++ sep ::
                (ws3 ++ (d2 ++ post)))))).takeWhile isDig).isEmpty
            then '.' :: (dfrac ++ (ws1 ++ (u ++ (ws2 ++ sep :: (ws3 ++ (d2 ++ post))))))
            else (dfrac ++ (ws1 ++ (u ++ (ws2 ++ sep ::
              (ws3 ++ (d2 ++ post)))))).dropWhile isDig
        from rfl]
      rw [takeWhile_app isDig dfrac _ hdf, he0, takeWhile_not_dig e0 t0 hd0,
        List.append_nil]
      rw [if_neg (by simpa [List.isEmpty_iff] using hdfne)]
      rw [dropWhile_app isDig dfrac _ hdf, dropWhile_not_dig e0 t0 hd0]
  have hrest : skipWs (matchUnit
      (skipWs (ws1 ++ (u ++ (ws2 ++ sep :: (ws3 ++ (d2 ++ post)))))))
      = sep :: (ws3 ++ (d2 ++ post)) := by
    rw [skipWs_ws_app ws1 _ hw1]
    obtain ⟨e, t2, hequ, -, -, hwse⟩ := hheadU
    rw [hequ, List.cons_append, skipWs_not_ws e _ hwse, ← List.cons_append, ← hequ]
    rw [hmu, skipWs_ws_app ws2 _ hw2]
    exact skipWs_not_ws sep _ (isPyWs_eq_false_of_isSep sep hs)
  have hg2 : ((skipWs (ws3 ++ (d2 ++ post))).takeWhile isDig).isEmpty = false := by
    rw [skipWs_ws_app ws3 _ hw3, skipWs_digits d2 post hd2 h2,
      takeWhile_app isDig d2 post hd2]
    cases d2 with
    | nil => exact absurd rfl h2
    | cons a t => rfl
  apply parseSetChars_isSome_of_search
  exact searchMatch_append_of_matchAt pre _
    (matchAt_flex num d1 (ws1 ++ (u ++ (ws2 ++ sep :: (ws3 ++ (d2 ++ post))))) sep
      (ws3 ++ (d2 ++ post)) htw h1 haf hrest hs hg2)

theorem parse_set_line_lowercase_unit_matches_witness :
    (parse_set_line (String.mk
      ([] ++ (['8', '0'] ++ ([] ++ (['k', 'g'] ++ ([' '] ++ 'x' ::
        ([] ++ (['1', '0'] ++ []))))))))).isSome = true :=
  parse_set_line_lowercase_unit_matches [] [] ['8', '0'] ['8', '0'] [] [] [' '] []
    ['1', '0'] ['k', 'g'] 'x' (by decide) (by decide) (Or.inl rfl) (by decide) (by decide)
    (by decide) (by decide) (by decide) (by decide) (by decide)

/-- C1: whenever `parse_set_line` succeeds, the returned weight is the value
of the matched number multiplied by 2.20462 when the lower-cased full line
contains "kg" or "kilogram" anywhere (even outside the matched span), and is
that value unchanged otherwise. -/
theorem parse_set_line_kg_conversion (line : String) (w : ℚ) (r : ℕ)
    (h : parse_set_line line = some (w, r)) :
    ∃ g1 g2, searchMatch line.toList = some (g1, g2) ∧ r = natOfDigits g2
      ∧ (kgHeuristic line.toList = true → w = ratOfNum g1 * kgFactor)
      ∧ (kgHeuristic line.toList = false → w = ratOfNum g1) := by
  unfold parse_set_line parseSetChars at h
  cases hm : searchMatch line.toList with
  | none => rw [hm] at h; exact absurd h (by simp)
  | some p =>
    obtain ⟨g1, g2⟩ := p
    rw [hm] at h
    simp only [Option.some.injEq, Prod.mk.injEq] at h
    obtain ⟨hw, hr⟩ := h
    refine ⟨g1, g2, rfl, hr.symm, ?_, ?_⟩
    · intro hk
      rw [hk] at hw
      simpa using hw.symm
    · intro hk
      rw [hk] at hw
      simpa using hw.symm

theorem parse_set_line_kg_conversion_witness :
    ∃ g1 g2, searchMatch "Set 1: 100 x 5 (45kg stack)".toList = some (g1, g2)
      ∧ 5 = natOfDigits g2
      ∧ (kgHeuristic "Set 1: 100 x 5 (45kg stack)".toList = true →
          (110231 / 500 : ℚ) = ratOfNum g1 * kgFactor)
      ∧ (kgHeuristic "Set 1: 100 x 5 (45kg stack)".toList = false →
          (110231 / 500 : ℚ) = ratOfNum g1) :=
  parse_set_line_kg_conversion "Set 1: 100 x 5 (45kg stack)" (110231 / 500) 5 (by decide)

/-- C3: a trimmed non-empty line on which the set parser fails becomes the new
current exercise name (replacing any previous value, with every total and the
seen-exercise set unchanged) exactly when all five conditions hold: no
digits-separator-digits guard match, the lower-cased line does not start with
"set ", "logged with" or "rep ", and the line is longer than 3 characters. -/
theorem exercise_name_update_rule (st : AggSt) (raw : List Char)
    (hne : stripChars raw ≠ [])
    (hparse : parseSetChars (stripChars raw) = none) :
    ((processLine st raw).current
        = if exCandidate (stripChars raw) = true then some (stripChars raw) else st.current)
    ∧ (processLine st raw).vol = st.vol
    ∧ (processLine st raw).sets = st.sets
    ∧ (processLine st raw).reps = st.reps
    ∧ (processLine st raw).exercises = st.exercises
    ∧ (exCandidate (stripChars raw) = true ↔
        (guardSearch (stripChars raw) = false
          ∧ isPrefixListB ['s', 'e', 't', ' '] ((stripChars raw).map Char.toLower) = false
          ∧ isPrefixListB ['l', 'o', 'g', 'g', 'e', 'd', ' ', 'w', 'i', 't', 'h']
              ((stripChars raw).map Char.toLower) = false
          ∧ isPrefixListB ['r', 'e', 'p', ' '] ((stripChars raw).map Char.toLower) = false
          ∧ 3 < (stripChars raw).length)) := by
  have hp : processLine st raw
      = if exCandidate (stripChars raw) = true
        then { st with current := some (stripChars raw) } else st := by
    unfold processLine
    rw [if_neg hne, hparse]
  refine ⟨?_, ?_, ?_, ?_, ?_, ?_⟩
  · rw [hp]
    by_cases hc : exCandidate (stripChars raw) = true <;> simp [hc]
  · rw [hp]
    by_cases hc : exCandidate (stripChars raw) = true <;> simp [hc]
  · rw [hp]
    by_cases hc : exCandidate (stripChars raw) = true <;> simp [hc]
  · rw [hp]
    by_cases hc : exCandidate (stripChars raw) = true <;> simp [hc]
  · rw [hp]
    by_cases hc : exCandidate (stripChars raw) = true <;> simp [hc]
  · simp [exCandidate, Bool.and_eq_true, Bool.not_eq_true', decide_eq_true_eq, and_assoc]

theorem exercise_name_update_rule_witness :
    (processLine initSt "Bench Press".toList).current
      = if exCandidate (stripChars "Bench Press".toList) = true
        then some (stripChars "Bench Press".toList) else initSt.current :=
  (exercise_name_update_rule initSt "Bench Press".toList (by decide) (by decide)).1

theorem ratOfNum_nonneg (g : List Char) : 0 ≤ ratOfNum g := by
  unfold ratOfNum
  split
  · exact Nat.cast_nonneg _
  · positivity

theorem parseSetChars_nonneg (l : List Char) (w : ℚ) (r : ℕ)
    (h : parseSetChars l = some (w, r)) : 0 ≤ w := by
  unfold parseSetChars at h
  cases hm : searchMatch l with
  | none => rw [hm] at h; exact absurd h (by simp)
  | some p =>
    obtain ⟨g1, g2⟩ := p
    rw [hm] at h
    simp only [Option.some.injEq, Prod.mk.injEq] at h
    rw [← h.1]
    by_cases hk : kgHeuristic l = true
    · simp only [hk, if_true]
      have : (0 : ℚ) ≤ kgFactor := by decide
      exact mul_nonneg (ratOfNum_nonneg g1) this
    · simp only [hk, if_false]
      exact ratOfNum_nonneg g1

theorem roundHalfEven_nonneg (q : ℚ) (h : 0 ≤ q) : 0 ≤ roundHalfEven q := by
  have hf : (0 : ℤ) ≤ ⌊q⌋ := Int.floor_nonneg.mpr h
  unfold roundHalfEven
  split
  · exact hf
  · split
    · omega
    · split <;> omega

theorem round2_nonneg (q : ℚ) (h : 0 ≤ q) : 0 ≤ round2 q := by
  unfold round2
  have hz : (0 : ℤ) ≤ roundHalfEven (q * 100) := roundHalfEven_nonneg _ (by positivity)
  have : (0 : ℚ) ≤ (roundHalfEven (q * 100) : ℚ) := by exact_mod_cast hz
  positivity

theorem foldl_totals (lines : List (List Char)) (st : AggSt) :
    ((lines.foldl processLine st).vol
        = st.vol + (((lines.filterMap fun raw => parseSetChars (stripChars raw)).map
            fun p => p.1 * (p.2 : ℚ)).sum))
    ∧ (lines.foldl processLine st).sets
        = st.sets + (lines.filterMap fun raw => parseSetChars (stripChars raw)).length
    ∧ (lines.foldl processLine st).reps
        = st.reps + (((lines.filterMap fun raw => parseSetChars (stripChars raw)).map
            Prod.snd).sum) := by
  induction lines generalizing st with
  | nil => simp
  | cons raw rest ih =>
    simp only [List.foldl_cons, List.filterMap_cons]
    cases hp : parseSetChars (stripChars raw) with
    | none =>
      have hstep : processLine st raw = st ∨ processLine st raw
          = { st with current := some (stripChars raw) } := by
        unfold processLine
        by_cases hne : stripChars raw = []
        · rw [if_pos hne]; exact Or.inl rfl
        · rw [if_neg hne, hp]
          by_cases hc : exCandidate (stripChars raw) = true
          · rw [if_pos hc]; exact Or.inr rfl
          · rw [if_neg hc]; exact Or.inl rfl
      obtain ⟨v, s, r⟩ := ih (processLine st raw)
      rcases hstep with he | he <;>
        exact ⟨by rw [v, he], by rw [s, he], by rw [r, he]⟩
    | some p =>
      obtain ⟨w, r⟩ := p
      have hne : stripChars raw ≠ [] := by
        intro hnil
        rw [hnil, show parseSetChars ([] : List Char) = none from rfl] at hp
        exact Option.noConfusion hp
      have hstep : (processLine st raw).vol = st.vol + w * r
          ∧ (processLine st raw).sets = st.sets + 1
          ∧ (processLine st raw).reps = st.reps + r := by
        unfold processLine
        rw [if_neg hne, hp]
        exact ⟨rfl, rfl, rfl⟩
      obtain ⟨v, s, r2⟩ := ih (processLine st raw)
      refine ⟨?_, ?_, ?_⟩
      · rw [v, hstep.1, List.map_cons, List.sum_cons]; ring
      · rw [s, hstep.2.1, List.length_cons]; omega
      · rw [r2, hstep.2.2, List.map_cons, List.sum_cons]; omega

theorem insertName_length_le (name : List Char) (l : List (List Char)) :
    (insertName name l).length ≤ l.length + 1 := by
  unfold insertName
  split
  · exact Nat.le_succ _
  · rfl

theorem foldl_exercises_le (lines : List (List Char)) (st : AggSt)
    (h : st.exercises.length ≤ st.sets) :
    (lines.foldl processLine st).exercises.length ≤ (lines.foldl processLine st).sets := by
  induction lines generalizing st with
  | nil => simpa using h
  | cons raw rest ih =>
    simp only [List.foldl_cons]
    apply ih
    unfold processLine
    by_cases hne : stripChars raw = []
    · rw [if_pos hne]; exact h
    · rw [if_neg hne]
      cases hp : parseSetChars (stripChars raw) with
      | some p =>
        obtain ⟨w, r⟩ := p
        show (match st.current with
          | none => st.exercises
          | some name => if name = [] then st.exercises else insertName name st.exercises).length
            ≤ st.sets + 1
        cases st.current with
        | none =>
          show st.exercises.length ≤ st.sets + 1
          omega
        | some name =>
          show (if name = [] then st.exercises else insertName name st.exercises).length
            ≤ st.sets + 1
          by_cases hnm : name = []
          · rw [if_pos hnm]
            omega
          · rw [if_neg hnm]
            have := insertName_length_le name st.exercises
            omega
      | none =>
        by_cases hc : exCandidate (stripChars raw) = true
        · rw [if_pos hc]; exact h
        · rw [if_neg hc]; exact h

/-- C4: for every input, total_volume_lbs is the sum of weight × reps over
exactly the trimmed lines the set parser recognizes, rounded to 2 decimal
places, and is nonnegative; total_sets is the number of recognized lines and
total_reps the sum of their rep counts. -/
theorem metrics_totals_spec (o : Option String) :
    (parse_weight_training_description o).total_volume_lbs
      = round2 (((recognizedSets o).map fun p => p.1 * (p.2 : ℚ)).sum)
    ∧ 0 ≤ (parse_weight_training_description o).total_volume_lbs
    ∧ (parse_weight_training_description o).total_sets = (recognizedSets o).length
    ∧ (parse_weight_training_description o).total_reps
        = ((recognizedSets o).map Prod.snd).sum := by
  have hsum : 0 ≤ ((recognizedSets o).map fun p => p.1 * (p.2 : ℚ)).sum := by
    apply List.sum_nonneg
    intro x hx
    obtain ⟨p, hp, rfl⟩ := List.mem_map.mp hx
    obtain ⟨raw, -, hq⟩ := List.mem_filterMap.mp hp
    obtain ⟨w, r⟩ := p
    exact mul_nonneg (parseSetChars_nonneg _ _ _ hq) (Nat.cast_nonneg r)
  match o with
  | none => exact ⟨by decide, by decide, by decide, by decide⟩
  | some d =>
    by_cases hd : d = ""
    · subst hd
      exact ⟨by decide, by decide, by decide, by decide⟩
    · have hun : parse_weight_training_description (some d)
          = { total_volume_lbs := round2 ((splitNl d.toList).foldl processLine initSt).vol
              total_sets := ((splitNl d.toList).foldl processLine initSt).sets
              total_reps := ((splitNl d.toList).foldl processLine initSt).reps
              exercise_count :=
                ((splitNl d.toList).foldl processLine initSt).exercises.length } := by
        unfold parse_weight_training_description
        simp only []
        rw [if_neg hd]
      have hrec : recognizedSets (some d)
          = (splitNl d.toList).filterMap fun raw => parseSetChars (stripChars raw) := rfl
      obtain ⟨v, s, r⟩ := foldl_totals (splitNl d.toList) initSt
      refine ⟨?_, ?_, ?_, ?_⟩
      · rw [hun]
        show round2 ((splitNl d.toList).foldl processLine initSt).vol = _
        rw [v, hrec, show initSt.vol = 0 from rfl, zero_add]
      · rw [hun]
        show 0 ≤ round2 ((splitNl d.toList).foldl processLine initSt).vol
        rw [v, show initSt.vol = 0 from rfl, zero_add]
        exact round2_nonneg _ (hrec ▸ hsum)
      · rw [hun]
        show ((splitNl d.toList).foldl processLine initSt).sets = _
        rw [s, hrec, show initSt.sets = 0 from rfl, Nat.zero_add]
      · rw [hun]
        show ((splitNl d.toList).foldl processLine initSt).reps = _
        rw [r, hrec, show initSt.reps = 0 from rfl, Nat.zero_add]

/-- C10: exercise_count never exceeds total_sets, since a name is added to the
seen set only when a set line is recognized and each recognized set line adds
at most one name. -/
theorem exercise_count_le_sets (o : Option String) :
    (parse_weight_training_description o).exercise_count
      ≤ (parse_weight_training_description o).total_sets := by
  match o with
  | none => exact Nat.le_refl 0
  | some d =>
    by_cases hd : d = ""
    · subst hd
      exact Nat.le_refl 0
    · have hun : parse_weight_training_description (some d)
          = { total_volume_lbs := round2 ((splitNl d.toList).foldl processLine initSt).vol
              total_sets := ((splitNl d.toList).foldl processLine initSt).sets
              total_reps := ((splitNl d.toList).foldl processLine initSt).reps
              exercise_count :=
                ((splitNl d.toList).foldl processLine initSt).exercises.length } := by
        unfold parse_weight_training_description
        simp only []
        rw [if_neg hd]
      rw [hun]
      exact foldl_exercises_le (splitNl d.toList) initSt (Nat.le_refl 0)

/-- C5: an absent (null) or empty description yields the all-zero metrics
record. -/
theorem zero_input_law :
    parse_weight_training_description none = zeroMetrics
    ∧ parse_weight_training_description (some "") = zeroMetrics :=
  ⟨rfl, by decide⟩

/-- C6: on the Hevy-style multi-exercise log of the test suite (a "Logged with
Hevy" header, 4 labeled exercises, 12 set lines), the aggregator returns
total_volume_lbs = 7230.0, total_sets = 12, total_reps = 75 and
exercise_count = 4. -/
theorem hevy_example_metrics :
    parse_weight_training_description (some hevyDesc)
      = { total_volume_lbs := 7230, total_sets := 12, total_reps := 75,
          exercise_count := 4 } := by
  decide

/-- C7: the aggregator is deterministic and carries no state between calls:
in any sequence of invocations, the result of the last call depends only on
its own input text (so two calls on the same text agree, whatever ran
before). -/
theorem aggregator_history_independence (pre : List (Option String)) (d : Option String) :
    (runCalls (pre ++ [d])).getLast? = some (parse_weight_training_description d) := by
  unfold runCalls
  rw [List.map_append]
  simp

/-- C8: the adapter returns exactly the aggregator applied to the record's
description attribute, a missing or null attribute being read as the empty
string — hence those records yield the all-zero result. -/
theorem adapter_delegation :
    (∀ a : Activity, get_weight_training_metrics a
        = parse_weight_training_description (some (match a.description with
            | some (some s) => s
            | _ => "")))
    ∧ get_weight_training_metrics ⟨none⟩ = zeroMetrics
    ∧ get_weight_training_metrics ⟨some none⟩ = zeroMetrics :=
  ⟨fun _ => rfl, by decide, by decide⟩

end WeightTraining
